import Mathlib

/-!
Shallow embedding of the frame reassembly, client fan-out, framing and
configuration subsystems of raspijpgs (src/src/raspijpgs.c), together with
theorems settling the specification claims about them.

Bytes are modelled as natural numbers (the C code moves `char`/`uint8_t`
values around without arithmetic on them, except where noted).  The MMAL
buffers handed to the main loop become `Chunk` values; the global
`state.socket_buffer` / `state.socket_buffer_ix` pair becomes `AsmState`;
observable side effects (frames distributed via `distribute_jpeg`, warnings
via `warnx`) become `Event` values.
-/

namespace Raspijpgs

/-- Capacity of the frame assembly buffer, `MAX_DATA_BUFFER_SIZE` in
raspijpgs.c. -/
def MAX_DATA_BUFFER_SIZE : Nat := 131072

/-- Maximum number of registered clients, `MAX_CLIENTS` in raspijpgs.c. -/
def MAX_CLIENTS : Nat := 8

/-- Capacity of the stdin carry-over buffer, `MAX_REQUEST_BUFFER_SIZE` in
raspijpgs.c. -/
def MAX_REQUEST_BUFFER_SIZE : Nat := 4096

/-- One encoded buffer handed from the MMAL jpeg encoder to the main loop:
its data bytes and whether `MMAL_BUFFER_HEADER_FLAG_FRAME_END` is set. -/
structure Chunk where
  data : List Nat
  frameEnd : Bool
  deriving DecidableEq, Repr

/-- Observable events of the reassembler: a complete frame handed to
`distribute_jpeg`, or a `warnx` diagnostic. -/
inductive Event where
  | frame (bytes : List Nat)
  | warn
  deriving DecidableEq, Repr

/-- The assembly state: `buf` models the byte array `state.socket_buffer`
(as a total function from index to byte) and `ix` models
`state.socket_buffer_ix`. -/
structure AsmState where
  buf : Nat → Nat
  ix : Nat

/-- Model of `memcpy(&buf[off], data, data.length)`: bytes `off ≤ j <
off + data.length` are replaced by the chunk bytes, others are kept. -/
def writeBytes (buf : Nat → Nat) (off : Nat) (data : List Nat) : Nat → Nat :=
  fun j => if off ≤ j ∧ j < off + data.length then data.getD (j - off) 0 else buf j

/-- First `n` bytes of the buffer, the region `buf[0..n)` passed to
`distribute_jpeg(state.socket_buffer, n)`. -/
def readBuf (buf : Nat → Nat) (n : Nat) : List Nat :=
  (List.range n).map buf

/-- Model of `jpegencoder_buffer_callback_impl` in raspijpgs.c (the body
that inspects the buffer; pipe plumbing, `mem_lock` and buffer recycling
have no effect on the modelled state).  Returns the new assembly state and
the list of observable events.

Source logic: if `socket_buffer_ix == 0`, the buffer has the frame-end
flag, and its length is at most `MAX_DATA_BUFFER_SIZE`, the chunk itself is
distributed.  Otherwise, if appending would exceed the capacity: a
frame-end chunk resets the index to 0 (frame dropped silently); a
non-frame-end chunk emits one `warnx` and poisons the buffer by setting
the index to `MAX_DATA_BUFFER_SIZE`, unless the index is already exactly
`MAX_DATA_BUFFER_SIZE`, in which case nothing happens.  Otherwise the
bytes are copied in, and on frame-end the accumulated region is
distributed and the index reset. -/
def jpegencoder_buffer_callback_impl (s : AsmState) (c : Chunk) :
    AsmState × List Event :=
  if s.ix = 0 ∧ c.frameEnd = true ∧ c.data.length ≤ MAX_DATA_BUFFER_SIZE then
    (s, [Event.frame c.data])
  else if MAX_DATA_BUFFER_SIZE < s.ix + c.data.length then
    if c.frameEnd then
      ({ s with ix := 0 }, [])
    else if s.ix ≠ MAX_DATA_BUFFER_SIZE then
      ({ s with ix := MAX_DATA_BUFFER_SIZE }, [Event.warn])
    else
      (s, [])
  else
    if c.frameEnd then
      ({ buf := writeBytes s.buf s.ix c.data, ix := 0 },
        [Event.frame (readBuf (writeBytes s.buf s.ix c.data) (s.ix + c.data.length))])
    else
      ({ buf := writeBytes s.buf s.ix c.data, ix := s.ix + c.data.length }, [])

/-- Model of `jpegencoder_buffer_callback`: buffers with zero length are
recycled without being forwarded to the main loop, every other buffer
reaches `jpegencoder_buffer_callback_impl`. -/
def jpegencoder_buffer_callback (s : AsmState) (c : Chunk) :
    AsmState × List Event :=
  if c.data.length = 0 then (s, [])
  else jpegencoder_buffer_callback_impl s c

/-- Processing of a sequence of encoder buffers by the main loop, in
arrival order, accumulating the emitted events. -/
def runChunks (s : AsmState) : List Chunk → AsmState × List Event
  | [] => (s, [])
  | c :: cs =>
    let r1 := jpegencoder_buffer_callback s c
    let r2 := runChunks r1.1 cs
    (r2.1, r1.2 ++ r2.2)

/-- Model of `add_client`: the registry `state.client_addrs` is the array
of `MAX_CLIENTS` slots, a slot being `none` when `sun_family == 0` (free)
and `some a` when it holds address `a`.  The source scans the slots in
order, stores the address in the first free slot and returns; if no slot
is free it emits one `warnx` ("Reached max number of clients") and returns
normally.  There is no duplicate check. -/
def add_client (slots : List (Option Nat)) (a : Nat) :
    List (Option Nat) × List Event :=
  match slots with
  | [] => ([], [Event.warn])
  | none :: rest => (some a :: rest, [])
  | some b :: rest =>
    let r := add_client rest a
    (some b :: r.1, r.2)

/-- Model of the client fan-out loop of `distribute_jpeg`: every occupied
slot gets a `sendto`; a failed send (modelled by the oracle `sendOk`
returning `false`) clears the slot (`sun_family = 0`), a successful send
delivers the frame.  Returns the new registry and the list of addresses
the frame was delivered to, in slot order. -/
def distribute_jpeg (slots : List (Option Nat)) (sendOk : Nat → Bool) :
    List (Option Nat) × List Nat :=
  match slots with
  | [] => ([], [])
  | none :: rest =>
    let r := distribute_jpeg rest sendOk
    (none :: r.1, r.2)
  | some a :: rest =>
    let r := distribute_jpeg rest sendOk
    if sendOk a then (some a :: r.1, a :: r.2) else (none :: r.1, r.2)

/-- Model of the state mutations of `server_service_client` that touch the
assembly buffer and the registry: `recvfrom` stores the datagram payload
at the start of `state.socket_buffer` (the same array the reassembler
accumulates frames in), a terminating 0 byte is written right after it,
`state.socket_buffer_ix` is left untouched, and the sender is registered
with `add_client`.  The subsequent `parse_config_lines` works on the
null-terminated text in `socket_buffer`; option setters and appliers
mutate the environment, the framing string and camera parameters, none of
which is part of `AsmState`, so they are not modelled here. -/
def server_service_client (s : AsmState) (slots : List (Option Nat))
    (datagram : List Nat) (fromAddr : Nat) :
    AsmState × List (Option Nat) :=
  ({ buf := writeBytes s.buf 0 (datagram ++ [0]), ix := s.ix },
    (add_client slots fromAddr).1)

/-- Model of `from_uint32_be` in raspijpgs.c, byte for byte: note that the
source reads `buf[0]`, `buf[1]`, `buf[2]` and `buf[4]`. -/
def from_uint32_be (b : List Nat) : Nat :=
  ((b.getD 0 0) <<< 24) ||| ((b.getD 1 0) <<< 16) ||| ((b.getD 2 0) <<< 8) ||| (b.getD 4 0)

/-- Loop of `process_stdin_header_framing`: while more than 4 bytes are
buffered, the length word read by `from_uint32_be` is nonzero, and the
whole packet is buffered, the payload is handed to `parse_config_lines`
and the buffer advanced past the packet.  Returns the remaining carry-over
bytes, the parsed payloads in order, and the final value of the C variable
`len` (0 if the length word was never read, matching its initializer). -/
def header_loop (buffer : List Nat) (len0 : Nat) :
    List Nat × List (List Nat) × Nat :=
  if h4 : 4 < buffer.length then
    if hp : from_uint32_be buffer ≠ 0 ∧ 4 + from_uint32_be buffer ≤ buffer.length then
      let payload := (buffer.drop 4).take (from_uint32_be buffer)
      let rest := buffer.drop (4 + from_uint32_be buffer)
      let r := header_loop rest (from_uint32_be buffer)
      (r.1, payload :: r.2.1, r.2.2)
    else (buffer, [], from_uint32_be buffer)
  else (buffer, [], len0)
termination_by buffer.length
decreasing_by
  simp only [List.length_drop]
  omega

/-- Model of `process_stdin_header_framing`: run the packet loop on the
carry-over buffer, then treat a bogus length word
(`len >= MAX_DATA_BUFFER_SIZE - 4 - 1`) as a fatal desynchronization; the
Bool records whether `errx` terminates the process. -/
def process_stdin_header_framing (buffer : List Nat) :
    List Nat × List (List Nat) × Bool :=
  let r := header_loop buffer 0
  (r.1, r.2.1, decide (MAX_DATA_BUFFER_SIZE - 4 - 1 ≤ r.2.2))

/-- Origin contexts of configuration mutations, mirroring
`enum config_context` in raspijpgs.c. -/
inductive ConfigContext where
  | parse_cmdline
  | file
  | server_start
  | client_request
  deriving DecidableEq, Repr

/-- Model of POSIX `setenv(key, value, overwrite)` on an environment
represented as a partial map: when `overwrite` is false an existing value
is preserved, otherwise it is replaced. -/
def setenv_model (env : String → Option String) (key v : String)
    (overwrite : Bool) : String → Option String :=
  fun q =>
    if q = key then
      match env key with
      | none => some v
      | some old => if overwrite then some v else some old
    else env q

/-- Model of POSIX `unsetenv(key)`. -/
def unsetenv_model (env : String → Option String) (key : String) :
    String → Option String :=
  fun q => if q = key then none else env q

/-- Model of `default_set` in raspijpgs.c: options without an `env_key`
are untouched; otherwise `replace = (context != config_context_file)`, a
present value is stored with `setenv(key, value, replace)` and an absent
value unsets the key when `replace` holds. -/
def default_set (envKey : Option String) (value : Option String)
    (context : ConfigContext) (env : String → Option String) :
    String → Option String :=
  match envKey with
  | none => env
  | some k =>
    let replace := context ≠ ConfigContext.file
    match value with
    | some v => setenv_model env k v (decide replace)
    | none => if replace then unsetenv_model env k else env

/-- Model of `constrain` in raspijpgs.c, on C ints. -/
def constrain (minimum value maximum : Int) : Int :=
  if value < minimum then minimum
  else if value > maximum then maximum
  else value

/-- Model of `quality_apply`: the environment value (already parsed by
`strtoul`) is constrained into 0..100 and written to the encoder's
`MMAL_PARAMETER_JPEG_Q_FACTOR`.  The returned pair is the value set on the
port and whether the process terminates (the only `errx` is for an MMAL
port failure, which is outside this model, so the flag is always false:
an out-of-range client request never ends the session). -/
def quality_apply (envValue : Nat) : Int × Bool :=
  (constrain 0 (envValue : Int) 100, false)

/-- Big-endian serialization of a 32-bit length, the bytes of
`uint32_t len32 = htonl(len)` as written by `output_jpeg` in header
framing mode. -/
def to_uint32_be (n : Nat) : List Nat :=
  [n / 2 ^ 24 % 256, n / 2 ^ 16 % 256, n / 2 ^ 8 % 256, n % 256]

/-- Bytes written by `output_jpeg` for one frame in `header` framing mode:
the 4-byte big-endian length followed by the frame bytes (one `writev` of
both iovecs). -/
def output_jpeg_header_mode (frame : List Nat) : List Nat :=
  to_uint32_be frame.length ++ frame

/-- Specification-side decoder for the length-prefixed stream, written
from the words of the spec ("a 4-byte big-endian length followed by the
frame bytes"): read the length from the first four bytes, then take
exactly that many payload bytes. -/
def declared_len (bytes : List Nat) : Nat :=
  bytes.getD 0 0 * 2 ^ 24 + bytes.getD 1 0 * 2 ^ 16 +
    bytes.getD 2 0 * 2 ^ 8 + bytes.getD 3 0

/-- Decoder for the length-prefixed stream, written from the words of the
spec: check that the declared length of payload is available after the
4-byte prefix and take exactly that many bytes. -/
def decode_header_mode_spec (bytes : List Nat) : Option (List Nat) :=
  if 4 ≤ bytes.length then
    if declared_len bytes ≤ (bytes.drop 4).length then
      some ((bytes.drop 4).take (declared_len bytes))
    else none
  else none

/-- Decimal digits of a natural number, least significant first, as
produced by the divide-by-ten loop inside printf-style formatting. -/
def to_decimal_le (n : Nat) : List Nat :=
  if h : n = 0 then []
  else (n % 10) :: to_decimal_le (n / 10)
termination_by n
decreasing_by
  exact Nat.div_lt_self (Nat.pos_of_ne_zero h) (by norm_num)

/-- Decimal digit string of a natural number, most significant first,
matching what `sprintf("%d", n)` prints for a nonnegative int. -/
def to_decimal (n : Nat) : List Nat :=
  if n = 0 then [0] else (to_decimal_le n).reverse

/-- Byte string of a Lean string, for the literal pieces of the C format
strings. -/
def strBytes (s : String) : List Nat :=
  s.toList.map Char.toNat

/-- Bytes of `mime_boundary` in raspijpgs.c. -/
def mime_boundary : List Nat :=
  strBytes "\r\n--jpegboundary\r\n"

/-- Label part of `mime_multipart_header_format` up to the point where
`%d` is substituted. -/
def content_length_label : List Nat :=
  strBytes "Content-Type: image/jpeg\r\nContent-Length: "

/-- Bytes of the part header produced by
`sprintf(multipart_header, mime_multipart_header_format, len)`: the fixed
label, the decimal rendering of `len` in ASCII, and the closing blank
line. -/
def mime_multipart_header (len : Nat) : List Nat :=
  content_length_label ++ (to_decimal len).map (· + 48) ++ strBytes "\r\n\r\n"

/-- The three iovecs written by `output_jpeg` for one frame in `mime`
framing mode: part header, frame bytes, boundary marker. -/
def output_jpeg_mime_mode (frame : List Nat) : List (List Nat) :=
  [mime_multipart_header frame.length, frame, mime_boundary]

/-- Specification-side decimal parser over ASCII digit bytes, written from
the words of the spec (the declared Content-Length value). -/
def decimal_value (digits : List Nat) : Nat :=
  digits.foldl (fun acc d => acc * 10 + (d - 48)) 0

/-- Total number of data bytes in a chunk sequence. -/
def sumLens (cs : List Chunk) : Nat :=
  (cs.map (fun c => c.data.length)).sum

/-- Concatenation of the data bytes of a chunk sequence, the frame bytes
the sequence carries. -/
def chunkConcat (cs : List Chunk) : List Nat :=
  (cs.map Chunk.data).flatten

lemma chunkConcat_length (cs : List Chunk) :
    (chunkConcat cs).length = sumLens cs := by
  simp only [chunkConcat, sumLens, List.length_flatten, List.map_map]
  rfl

lemma map_getD_range (l : List Nat) :
    (List.range l.length).map (fun i => l.getD i 0) = l := by
  induction l with
  | nil => simp
  | cons a l ih =>
    rw [List.length_cons, List.range_succ_eq_map, List.map_cons, List.map_map]
    have hf : ∀ i ∈ List.range l.length,
        ((fun i => (a :: l).getD i 0) ∘ Nat.succ) i = l.getD i 0 := by
      intro i _
      simp [Function.comp]
    rw [List.map_congr_left hf, ih]
    rfl

lemma readBuf_writeBytes (buf : Nat → Nat) (off : Nat) (data : List Nat) :
    readBuf (writeBytes buf off data) (off + data.length) =
      readBuf buf off ++ data := by
  unfold readBuf writeBytes
  rw [List.range_add, List.map_append, List.map_map]
  congr 1
  · apply List.map_congr_left
    intro i hi
    rw [List.mem_range] at hi
    exact if_neg (by omega)
  · have h : ∀ i ∈ List.range data.length,
        ((fun j => if off ≤ j ∧ j < off + data.length then data.getD (j - off) 0
          else buf j) ∘ (off + ·)) i = data.getD i 0 := by
      intro i hi
      rw [List.mem_range] at hi
      simp only [Function.comp]
      rw [if_pos (by omega)]
      congr 1
      omega
    rw [List.map_congr_left h, map_getD_range]

lemma runChunks_append (s : AsmState) (xs ys : List Chunk) :
    runChunks s (xs ++ ys) =
      ((runChunks (runChunks s xs).1 ys).1,
        (runChunks s xs).2 ++ (runChunks (runChunks s xs).1 ys).2) := by
  induction xs generalizing s with
  | nil => simp [runChunks]
  | cons c xs ih => simp [runChunks, ih, List.append_assoc]

lemma callback_no_end_step (s : AsmState) (c : Chunk)
    (hce : c.frameEnd = false) (hnz : c.data.length ≠ 0)
    (hle : s.ix + c.data.length ≤ MAX_DATA_BUFFER_SIZE) :
    jpegencoder_buffer_callback s c =
      ({ buf := writeBytes s.buf s.ix c.data, ix := s.ix + c.data.length }, []) := by
  unfold jpegencoder_buffer_callback jpegencoder_buffer_callback_impl
  rw [if_neg hnz, if_neg (by simp [hce]), if_neg (by omega), if_neg (by simp [hce])]

lemma runChunks_no_end (cs : List Chunk) :
    ∀ (s : AsmState), (∀ c ∈ cs, c.frameEnd = false) →
    s.ix + sumLens cs ≤ MAX_DATA_BUFFER_SIZE →
    (runChunks s cs).1.ix = s.ix + sumLens cs ∧
    readBuf (runChunks s cs).1.buf (s.ix + sumLens cs) =
      readBuf s.buf s.ix ++ chunkConcat cs ∧
    (runChunks s cs).2 = [] := by
  induction cs with
  | nil =>
    intro s _ _
    simp [runChunks, sumLens, chunkConcat]
  | cons c cs ih =>
    intro s h1 h2
    have hce : c.frameEnd = false := h1 c (by simp)
    have h1' : ∀ d ∈ cs, d.frameEnd = false := fun d hd => h1 d (by simp [hd])
    have hsum : sumLens (c :: cs) = c.data.length + sumLens cs := by
      simp [sumLens]
    by_cases hz : c.data.length = 0
    · have hdata : c.data = [] := List.length_eq_zero.mp hz
      have r1eq : jpegencoder_buffer_callback s c = (s, []) := by
        simp [jpegencoder_buffer_callback, hz]
      have ihs := ih s h1' (by omega)
      have hcc : chunkConcat (c :: cs) = chunkConcat cs := by
        simp [chunkConcat, hdata]
      simp only [runChunks, r1eq]
      refine ⟨?_, ?_, ?_⟩
      · rw [ihs.1]; omega
      · rw [hsum, hz, Nat.zero_add, hcc]; exact ihs.2.1
      · simpa using ihs.2.2
    · have hle : s.ix + c.data.length ≤ MAX_DATA_BUFFER_SIZE := by omega
      have r1eq := callback_no_end_step s c hce hz hle
      have ihs := ih ⟨writeBytes s.buf s.ix c.data, s.ix + c.data.length⟩ h1'
        (show s.ix + c.data.length + sumLens cs ≤ MAX_DATA_BUFFER_SIZE by omega)
      have ih1 : (runChunks ⟨writeBytes s.buf s.ix c.data,
          s.ix + c.data.length⟩ cs).1.ix = s.ix + c.data.length + sumLens cs :=
        ihs.1
      have ih2 : readBuf (runChunks ⟨writeBytes s.buf s.ix c.data,
            s.ix + c.data.length⟩ cs).1.buf (s.ix + c.data.length + sumLens cs) =
          readBuf (writeBytes s.buf s.ix c.data) (s.ix + c.data.length) ++
            chunkConcat cs :=
        ihs.2.1
      have ih3 : (runChunks ⟨writeBytes s.buf s.ix c.data,
          s.ix + c.data.length⟩ cs).2 = [] :=
        ihs.2.2
      have e1 : s.ix + sumLens (c :: cs) = s.ix + c.data.length + sumLens cs := by
        rw [hsum]
        omega
      have hcc : chunkConcat (c :: cs) = c.data ++ chunkConcat cs := by
        simp [chunkConcat]
      simp only [runChunks, r1eq]
      refine ⟨?_, ?_, ?_⟩
      · rw [ih1, e1]
      · rw [e1, ih2, readBuf_writeBytes, hcc, List.append_assoc]
      · simp [ih3]

lemma runChunks_poisoned (cs : List Chunk) :
    ∀ (s : AsmState), s.ix = MAX_DATA_BUFFER_SIZE →
    (∀ c ∈ cs, c.frameEnd = false) →
    runChunks s cs = (s, []) := by
  induction cs with
  | nil => intro s _ _; simp [runChunks]
  | cons c cs ih =>
    intro s hix h1
    have hce : c.frameEnd = false := h1 c (by simp)
    have h1' : ∀ d ∈ cs, d.frameEnd = false := fun d hd => h1 d (by simp [hd])
    by_cases hz : c.data.length = 0
    · have r1eq : jpegencoder_buffer_callback s c = (s, []) := by
        simp [jpegencoder_buffer_callback, hz]
      simp only [runChunks, r1eq]
      simpa using ih s hix h1'
    · have r1eq : jpegencoder_buffer_callback s c = (s, []) := by
        unfold jpegencoder_buffer_callback jpegencoder_buffer_callback_impl
        rw [if_neg hz, if_neg (by simp [hce]),
          if_pos (by omega), if_neg (by simp [hce]), if_neg (by simp [hix])]
      simp only [runChunks, r1eq]
      simpa using ih s hix h1'

lemma readBuf_zero (buf : Nat → Nat) : readBuf buf 0 = [] := by
  simp [readBuf]

/-- C1: starting from an empty assembly buffer, if a chunk sequence
carries the bytes of one frame, only its final chunk (which is nonempty,
as every buffer forwarded by the encoder callback is) has the frame-end
flag, and the total length fits in `MAX_DATA_BUFFER_SIZE`, then the
reassembler emits exactly one frame, equal to the concatenation of the
chunk bytes. -/
theorem reassembly_exact (cs : List Chunk) (c : Chunk) (buf0 : Nat → Nat)
    (hnt : ∀ d ∈ cs, d.frameEnd = false)
    (hterm : c.frameEnd = true)
    (hne : c.data ≠ [])
    (hcap : sumLens cs + c.data.length ≤ MAX_DATA_BUFFER_SIZE) :
    (runChunks ⟨buf0, 0⟩ (cs ++ [c])).2 =
      [Event.frame (chunkConcat cs ++ c.data)] := by
  obtain ⟨hix, hrb, hev⟩ := runChunks_no_end cs ⟨buf0, 0⟩ hnt
    (show 0 + sumLens cs ≤ MAX_DATA_BUFFER_SIZE by omega)
  have hix' : (runChunks ⟨buf0, 0⟩ cs).1.ix = sumLens cs := by
    rw [hix]
    simp
  have hrb' : readBuf (runChunks ⟨buf0, 0⟩ cs).1.buf (sumLens cs) =
      chunkConcat cs := by
    have := hrb
    rw [show (⟨buf0, 0⟩ : AsmState).ix = 0 from rfl, readBuf_zero] at this
    simpa using this
  have hnz : c.data.length ≠ 0 := fun h => hne (List.length_eq_zero.mp h)
  rw [runChunks_append, hev]
  set s1 := (runChunks ⟨buf0, 0⟩ cs).1 with hs1
  by_cases h0 : sumLens cs = 0
  · have hcc : chunkConcat cs = [] := by
      rw [← List.length_eq_zero, chunkConcat_length]
      exact h0
    have step : jpegencoder_buffer_callback s1 c = (s1, [Event.frame c.data]) := by
      unfold jpegencoder_buffer_callback jpegencoder_buffer_callback_impl
      rw [if_neg hnz, if_pos ⟨by rw [hix', h0], hterm, by omega⟩]
    simp [runChunks, step, hcc]
  · have step : jpegencoder_buffer_callback s1 c =
        (⟨writeBytes s1.buf s1.ix c.data, 0⟩,
          [Event.frame (readBuf (writeBytes s1.buf s1.ix c.data)
            (s1.ix + c.data.length))]) := by
      unfold jpegencoder_buffer_callback jpegencoder_buffer_callback_impl
      rw [if_neg hnz, if_neg (by rw [hix']; simp [h0]),
        if_neg (by rw [hix']; omega), if_pos hterm]
    have hframe : readBuf (writeBytes s1.buf s1.ix c.data)
        (s1.ix + c.data.length) = chunkConcat cs ++ c.data := by
      rw [hix', readBuf_writeBytes, hrb']
    simp [runChunks, step, hframe]

/-- Witness for C1 at a concrete input: two 2-byte chunks then a terminal
1-byte chunk reassemble to the 5-byte frame. -/
theorem reassembly_exact_witness :
    (runChunks ⟨fun _ => 0, 0⟩
      [⟨[10, 20], false⟩, ⟨[30, 40], false⟩, ⟨[50], true⟩]).2 =
      [Event.frame (chunkConcat [⟨[10, 20], false⟩, ⟨[30, 40], false⟩] ++ [50])] :=
  reassembly_exact [⟨[10, 20], false⟩, ⟨[30, 40], false⟩] ⟨[50], true⟩
    (fun _ => 0) (by decide) rfl (by decide) (by decide)

lemma callback_poisoned_step (s : AsmState) (c : Chunk)
    (hix : s.ix = MAX_DATA_BUFFER_SIZE) (hce : c.frameEnd = false)
    (hnz : c.data.length ≠ 0) :
    jpegencoder_buffer_callback s c = (s, []) := by
  unfold jpegencoder_buffer_callback jpegencoder_buffer_callback_impl
  rw [if_neg hnz, if_neg (by simp [hce]), if_pos (by omega),
    if_neg (by simp [hce]), if_neg (by simp [hix])]

lemma callback_overflow_warn (s : AsmState) (c : Chunk)
    (hce : c.frameEnd = false) (hnz : c.data.length ≠ 0)
    (hover : MAX_DATA_BUFFER_SIZE < s.ix + c.data.length)
    (hne : s.ix ≠ MAX_DATA_BUFFER_SIZE) :
    jpegencoder_buffer_callback s c =
      ({ s with ix := MAX_DATA_BUFFER_SIZE }, [Event.warn]) := by
  unfold jpegencoder_buffer_callback jpegencoder_buffer_callback_impl
  rw [if_neg hnz, if_neg (by simp [hce]), if_pos hover,
    if_neg (by simp [hce]), if_pos hne]

lemma callback_terminal_overflow (s : AsmState) (c : Chunk)
    (hterm : c.frameEnd = true) (hnz : c.data.length ≠ 0) (hix0 : s.ix ≠ 0)
    (hover : MAX_DATA_BUFFER_SIZE < s.ix + c.data.length) :
    jpegencoder_buffer_callback s c = ({ s with ix := 0 }, []) := by
  unfold jpegencoder_buffer_callback jpegencoder_buffer_callback_impl
  rw [if_neg hnz, if_neg (by simp [hix0]), if_pos hover, if_pos hterm]

lemma overflow_run (ds1 : List Chunk) (c : Chunk) (ds2 : List Chunk)
    (t : Chunk) (buf0 : Nat → Nat)
    (h1 : ∀ d ∈ ds1, d.frameEnd = false)
    (hc : c.frameEnd = false)
    (h2 : ∀ d ∈ ds2, d.frameEnd = false)
    (ht : t.frameEnd = true) (htnz : t.data.length ≠ 0)
    (hlo : sumLens ds1 ≤ MAX_DATA_BUFFER_SIZE)
    (hhi : MAX_DATA_BUFFER_SIZE < sumLens ds1 + c.data.length) :
    (runChunks ⟨buf0, 0⟩ (ds1 ++ (c :: ds2) ++ [t])).2 =
      (if sumLens ds1 = MAX_DATA_BUFFER_SIZE then [] else [Event.warn]) ∧
    (runChunks ⟨buf0, 0⟩ (ds1 ++ (c :: ds2) ++ [t])).1.ix = 0 := by
  have hcnz : c.data.length ≠ 0 := by omega
  obtain ⟨hix, _, hev⟩ := runChunks_no_end ds1 ⟨buf0, 0⟩ h1 (by simp; omega)
  have hix' : (runChunks ⟨buf0, 0⟩ ds1).1.ix = sumLens ds1 := by
    rw [hix]
    simp
  rw [runChunks_append, runChunks_append, hev]
  set s1 := (runChunks ⟨buf0, 0⟩ ds1).1 with hs1def
  by_cases hm : sumLens ds1 = MAX_DATA_BUFFER_SIZE
  · have hs1ix : s1.ix = MAX_DATA_BUFFER_SIZE := by rw [hix']; exact hm
    have hall : ∀ d ∈ c :: ds2, d.frameEnd = false := by
      intro d hd
      rcases List.mem_cons.mp hd with h | h
      · rw [h]; exact hc
      · exact h2 d h
    rw [runChunks_poisoned (c :: ds2) s1 hs1ix hall]
    have et := callback_terminal_overflow s1 t ht htnz
      (by rw [hs1ix]; decide) (by rw [hs1ix]; omega)
    simp [runChunks, et, hm]
  · have hs1ne : s1.ix ≠ MAX_DATA_BUFFER_SIZE := by rw [hix']; exact hm
    have ec := callback_overflow_warn s1 c hc hcnz (by rw [hix']; omega) hs1ne
    have ep := runChunks_poisoned ds2 ⟨s1.buf, MAX_DATA_BUFFER_SIZE⟩ rfl h2
    have et := callback_terminal_overflow ⟨s1.buf, MAX_DATA_BUFFER_SIZE⟩ t ht
      htnz (by show MAX_DATA_BUFFER_SIZE ≠ 0; decide)
      (by show MAX_DATA_BUFFER_SIZE < MAX_DATA_BUFFER_SIZE + t.data.length
          omega)
    simp [runChunks, ec, ep, et, hm]

/-- C2 amended: starting from an empty assembly buffer, a chunk sequence
whose cumulative length exceeds `MAX_DATA_BUFFER_SIZE` before any
frame-end chunk appears emits no frame, no matter how many chunks follow
before the frame-end chunk, and the frame-end chunk resets the buffer to
empty; at most one overflow diagnostic is raised - exactly one, unless the
chunks before the overflowing one filled the buffer to exactly
`MAX_DATA_BUFFER_SIZE`, in which case the episode raises none. -/
theorem overflow_policy (ds1 : List Chunk) (c : Chunk) (ds2 : List Chunk)
    (t : Chunk) (buf0 : Nat → Nat)
    (h1 : ∀ d ∈ ds1, d.frameEnd = false)
    (hc : c.frameEnd = false)
    (h2 : ∀ d ∈ ds2, d.frameEnd = false)
    (ht : t.frameEnd = true) (htnz : t.data.length ≠ 0)
    (hlo : sumLens ds1 ≤ MAX_DATA_BUFFER_SIZE)
    (hhi : MAX_DATA_BUFFER_SIZE < sumLens ds1 + c.data.length) :
    (runChunks ⟨buf0, 0⟩ (ds1 ++ (c :: ds2) ++ [t])).2 =
      (if sumLens ds1 = MAX_DATA_BUFFER_SIZE then [] else [Event.warn]) ∧
    (runChunks ⟨buf0, 0⟩ (ds1 ++ (c :: ds2) ++ [t])).1.ix = 0 :=
  overflow_run ds1 c ds2 t buf0 h1 hc h2 ht htnz hlo hhi

lemma sumLens_cons (c : Chunk) (cs : List Chunk) :
    sumLens (c :: cs) = c.data.length + sumLens cs := by
  simp [sumLens]

lemma sumLens_nil : sumLens [] = 0 := rfl

/-- Witness for the amended C2: a single 131073-byte chunk overflows the
empty buffer; one warning, no frame, and the terminal chunk resets the
index to 0. -/
theorem overflow_policy_witness :
    (runChunks ⟨fun _ => 0, 0⟩
        [⟨List.replicate 131073 5, false⟩, ⟨[8], true⟩]).2 = [Event.warn] ∧
    (runChunks ⟨fun _ => 0, 0⟩
        [⟨List.replicate 131073 5, false⟩, ⟨[8], true⟩]).1.ix = 0 := by
  have ed : (⟨List.replicate 131073 5, false⟩ : Chunk).data =
      List.replicate 131073 5 := rfl
  have el : (⟨List.replicate 131073 5, false⟩ : Chunk).data.length = 131073 := by
    rw [ed, List.length_replicate]
  have hhi : MAX_DATA_BUFFER_SIZE <
      sumLens [] + (⟨List.replicate 131073 5, false⟩ : Chunk).data.length := by
    rw [sumLens_nil, el]
    decide
  have h := overflow_policy [] ⟨List.replicate 131073 5, false⟩ []
    ⟨[8], true⟩ (fun _ => 0)
    (by intro d hd; cases hd) rfl (by intro d hd; cases hd)
    rfl (by decide) (by rw [sumLens_nil]; decide) hhi
  rw [if_neg (by rw [sumLens_nil]; decide)] at h
  have hl : ([] ++ ((⟨List.replicate 131073 5, false⟩ : Chunk) :: []) ++
      [(⟨[8], true⟩ : Chunk)]) =
      [⟨List.replicate 131073 5, false⟩, ⟨[8], true⟩] := rfl
  rw [hl] at h
  exact h

/-- Counterexample to C2 as stated: when a non-terminal chunk fills the
buffer to exactly `MAX_DATA_BUFFER_SIZE` and the next chunk overflows it,
the episode raises no diagnostic at all (the claim demands exactly one),
because the full index aliases the poisoned-buffer marker. -/
theorem overflow_policy_cx :
    MAX_DATA_BUFFER_SIZE <
      sumLens [⟨List.replicate 131072 5, false⟩, ⟨[6], false⟩] ∧
    (runChunks ⟨fun _ => 0, 0⟩
        [⟨List.replicate 131072 5, false⟩, ⟨[6], false⟩, ⟨[7], true⟩]).2 = [] := by
  have ed : (⟨List.replicate 131072 5, false⟩ : Chunk).data =
      List.replicate 131072 5 := rfl
  have el : (⟨List.replicate 131072 5, false⟩ : Chunk).data.length = 131072 := by
    rw [ed, List.length_replicate]
  have hfill : sumLens [(⟨List.replicate 131072 5, false⟩ : Chunk)] =
      MAX_DATA_BUFFER_SIZE := by
    rw [sumLens_cons, sumLens_nil, el]
    decide
  constructor
  · rw [sumLens_cons, sumLens_cons, sumLens_nil, el]
    decide
  · have h := overflow_run [⟨List.replicate 131072 5, false⟩] ⟨[6], false⟩
      [] ⟨[7], true⟩ (fun _ => 0)
      (by intro d hd; rw [List.mem_singleton] at hd; rw [hd])
      rfl
      (by intro d hd; cases hd)
      rfl (by decide)
      (le_of_eq hfill)
      (by rw [hfill]; decide)
    rw [if_pos hfill] at h
    have hl : ([(⟨List.replicate 131072 5, false⟩ : Chunk)] ++
        ((⟨[6], false⟩ : Chunk) :: []) ++ [(⟨[7], true⟩ : Chunk)]) =
        [⟨List.replicate 131072 5, false⟩, ⟨[6], false⟩, ⟨[7], true⟩] := rfl
    rw [hl] at h
    exact h.1

/-- C3 amended: when a nonempty partial frame is in the assembly buffer
and the next nonempty chunk is frame-terminal but would push the total
past `MAX_DATA_BUFFER_SIZE`, the frame is dropped with no Frame emitted,
the buffer index resets to 0 with the accumulated bytes left in place, and
no diagnostic at all is logged (the drop is silent). -/
theorem terminal_overflow_drop (s : AsmState) (c : Chunk)
    (hpart : 0 < s.ix) (hterm : c.frameEnd = true) (hne : c.data ≠ [])
    (hover : MAX_DATA_BUFFER_SIZE < s.ix + c.data.length) :
    jpegencoder_buffer_callback s c = ({ s with ix := 0 }, []) :=
  callback_terminal_overflow s c hterm
    (fun h => hne (List.length_eq_zero.mp h)) (by omega) hover

/-- Witness for the amended C3 at a concrete input: 131070 buffered bytes
plus a 5-byte terminal chunk overflow; the callback resets the index and
emits nothing. -/
theorem terminal_overflow_drop_witness :
    jpegencoder_buffer_callback ⟨fun _ => 0, 131070⟩ ⟨[1, 2, 3, 4, 5], true⟩ =
      (⟨fun _ => 0, 0⟩, []) :=
  terminal_overflow_drop ⟨fun _ => 0, 131070⟩ ⟨[1, 2, 3, 4, 5], true⟩
    (by decide) rfl (by decide) (by decide)

/-- Counterexample to C3 as stated: with 131070 bytes of partial frame
buffered, a 5-byte terminal chunk pushes past the capacity; the claim
demands one warning diagnostic, but the event list is empty. -/
theorem terminal_overflow_drop_cx :
    0 < (131070 : Nat) ∧
    MAX_DATA_BUFFER_SIZE < 131070 + [9, 9, 9, 9, 9].length ∧
    (jpegencoder_buffer_callback ⟨fun _ => 0, 131070⟩ ⟨[9, 9, 9, 9, 9], true⟩).2
      = [] := by
  refine ⟨by decide, by decide, ?_⟩
  rw [callback_terminal_overflow ⟨fun _ => 0, 131070⟩ ⟨[9, 9, 9, 9, 9], true⟩
    rfl (by decide) (by decide) (by decide)]

/-- C4: the length-prefixed control parser misreads the length word.  The
packet `[0, 0, 0, 1, 113]` declares (per the protocol and the code's own
comment) a payload of 1 byte - the big-endian value of its first four
bytes - yet `from_uint32_be` computes 113, because the source reads
`buf[4]` (the first payload byte) where the least significant length byte
`buf[3]` belongs; as a consequence `process_stdin_header_framing` never
consumes this complete well-formed packet and no desynchronization exit is
taken either. -/
theorem from_uint32_be_wrong_byte :
    from_uint32_be [0, 0, 0, 1, 113] = 113 ∧
    from_uint32_be [0, 0, 0, 1, 113] ≠ 1 ∧
    process_stdin_header_framing [0, 0, 0, 1, 113] =
      ([0, 0, 0, 1, 113], [], false) := by
  refine ⟨by decide, by decide, ?_⟩
  rw [process_stdin_header_framing, header_loop]
  norm_num [from_uint32_be, MAX_DATA_BUFFER_SIZE]

/-- Number of occupied slots in the client registry. -/
def occupied (slots : List (Option Nat)) : Nat :=
  (slots.filterMap id).length

lemma occupied_cons_some (b : Nat) (l : List (Option Nat)) :
    occupied (some b :: l) = occupied l + 1 := by
  simp [occupied]

lemma occupied_cons_none (l : List (Option Nat)) :
    occupied (none :: l) = occupied l := by
  simp [occupied]

/-- C5 amended: `add_client` scans for the first free slot with no
duplicate check, so any registration - including one for an address
already present - consumes a fresh slot when one is free, and emits no
diagnostic; when every slot is occupied the registry is left unchanged,
exactly one diagnostic is raised, and the call still returns normally
(the caller sees no error). -/
theorem add_client_behavior (slots : List (Option Nat)) (a : Nat) :
    ((∀ s ∈ slots, s ≠ none) → add_client slots a = (slots, [Event.warn])) ∧
    (none ∈ slots →
      occupied (add_client slots a).1 = occupied slots + 1 ∧
      (add_client slots a).2 = [] ∧
      some a ∈ (add_client slots a).1) := by
  induction slots with
  | nil =>
    refine ⟨fun _ => rfl, fun h => absurd h (List.not_mem_nil none)⟩
  | cons s rest ih =>
    cases s with
    | none =>
      refine ⟨fun h => absurd rfl (h none (List.mem_cons_self _ _)), fun _ => ?_⟩
      refine ⟨?_, rfl, ?_⟩
      · show occupied (some a :: rest) = occupied (none :: rest) + 1
        rw [occupied_cons_some, occupied_cons_none]
      · show some a ∈ some a :: rest
        exact List.mem_cons_self _ _
    | some b =>
      constructor
      · intro h
        have h1 := ih.1 (fun x hx => h x (List.mem_cons_of_mem _ hx))
        show (some b :: (add_client rest a).1, (add_client rest a).2) = _
        rw [show (add_client rest a).1 = rest from congrArg Prod.fst h1,
          show (add_client rest a).2 = [Event.warn] from congrArg Prod.snd h1]
      · intro h
        have hmem : none ∈ rest := by
          rcases List.mem_cons.mp h with h | h
          · exact absurd h (by simp)
          · exact h
        obtain ⟨ho, he, hm⟩ := ih.2 hmem
        refine ⟨?_, ?_, ?_⟩
        · show occupied (some b :: (add_client rest a).1) =
            occupied (some b :: rest) + 1
          rw [occupied_cons_some, occupied_cons_some, ho]
        · exact he
        · exact List.mem_cons_of_mem _ hm

/-- Witness for the amended C5: a full 8-slot registry rejects address 9
with one diagnostic and stays unchanged; and in a registry already holding
address 1 with a free slot, re-registering address 1 consumes one more
slot. -/
theorem add_client_behavior_witness :
    add_client
        [some 1, some 2, some 3, some 4, some 5, some 6, some 7, some 8] 9 =
      ([some 1, some 2, some 3, some 4, some 5, some 6, some 7, some 8],
        [Event.warn]) ∧
    occupied (add_client
        [some 1, none, none, none, none, none, none, none] 1).1 =
      occupied [some 1, none, none, none, none, none, none, none] + 1 :=
  ⟨(add_client_behavior
      [some 1, some 2, some 3, some 4, some 5, some 6, some 7, some 8] 9).1
      (by decide),
    ((add_client_behavior
      [some 1, none, none, none, none, none, none, none] 1).2 (by decide)).1⟩

/-- Counterexample to C5 as stated: registering the already-registered
address 5 does not leave the registry unchanged - it fills the next free
slot with a duplicate. -/
theorem add_client_not_idempotent_cx :
    add_client [some 5, none, none, none, none, none, none, none] 5 =
      ([some 5, some 5, none, none, none, none, none, none], []) ∧
    ([some 5, some 5, none, none, none, none, none, none] :
        List (Option Nat)) ≠
      [some 5, none, none, none, none, none, none, none] := by
  decide

lemma mem_distribute_slots (slots : List (Option Nat)) (f : Nat → Bool)
    (x : Nat) (h : some x ∈ (distribute_jpeg slots f).1) :
    some x ∈ slots ∧ f x = true := by
  induction slots with
  | nil => cases h
  | cons s rest ih =>
    cases s with
    | none =>
      rcases List.mem_cons.mp h with h' | h'
      · cases h'
      · obtain ⟨h1, h2⟩ := ih h'
        exact ⟨List.mem_cons_of_mem _ h1, h2⟩
    | some b =>
      by_cases hb : f b = true
      · have h' : some x ∈ some b :: (distribute_jpeg rest f).1 := by
          simpa [distribute_jpeg, hb] using h
        rcases List.mem_cons.mp h' with h'' | h''
        · rw [Option.some_inj.mp h''.symm] at hb ⊢
          exact ⟨List.mem_cons_self _ _, hb⟩
        · obtain ⟨h1, h2⟩ := ih h''
          exact ⟨List.mem_cons_of_mem _ h1, h2⟩
      · have h' : some x ∈ (none : Option Nat) :: (distribute_jpeg rest f).1 := by
          simpa [distribute_jpeg, hb] using h
        rcases List.mem_cons.mp h' with h'' | h''
        · cases h''
        · obtain ⟨h1, h2⟩ := ih h''
          exact ⟨List.mem_cons_of_mem _ h1, h2⟩

lemma mem_distribute_sent (slots : List (Option Nat)) (f : Nat → Bool)
    (x : Nat) (h : x ∈ (distribute_jpeg slots f).2) : some x ∈ slots := by
  induction slots with
  | nil => cases h
  | cons s rest ih =>
    cases s with
    | none =>
      have h' : x ∈ (distribute_jpeg rest f).2 := by
        simpa [distribute_jpeg] using h
      exact List.mem_cons_of_mem _ (ih h')
    | some b =>
      by_cases hb : f b = true
      · have h' : x ∈ b :: (distribute_jpeg rest f).2 := by
          simpa [distribute_jpeg, hb] using h
        rcases List.mem_cons.mp h' with h'' | h''
        · rw [h'']
          exact List.mem_cons_self _ _
        · exact List.mem_cons_of_mem _ (ih h'')
      · have h' : x ∈ (distribute_jpeg rest f).2 := by
          simpa [distribute_jpeg, hb] using h
        exact List.mem_cons_of_mem _ (ih h')

lemma distribute_delivers (slots : List (Option Nat)) (f : Nat → Bool)
    (b : Nat) (hmem : some b ∈ slots) (hok : f b = true) :
    b ∈ (distribute_jpeg slots f).2 ∧ some b ∈ (distribute_jpeg slots f).1 := by
  induction slots with
  | nil => cases hmem
  | cons s rest ih =>
    cases s with
    | none =>
      have hmem' : some b ∈ rest := by
        rcases List.mem_cons.mp hmem with h' | h'
        · cases h'
        · exact h'
      obtain ⟨h1, h2⟩ := ih hmem'
      constructor
      · simpa [distribute_jpeg] using h1
      · simp [distribute_jpeg]
        exact h2
    | some c =>
      rcases List.mem_cons.mp hmem with h' | h'
      · have hcb : c = b := (Option.some_inj.mp h').symm
        subst hcb
        constructor
        · simp [distribute_jpeg, hok]
        · simp [distribute_jpeg, hok]
      · obtain ⟨h1, h2⟩ := ih h'
        by_cases hc : f c = true
        · constructor
          · simp [distribute_jpeg, hc]
            exact Or.inr h1
          · simp [distribute_jpeg, hc]
            exact Or.inr h2
        · constructor
          · simpa [distribute_jpeg, hc] using h1
          · simp [distribute_jpeg, hc]
            exact h2

lemma distribute_evicts (slots : List (Option Nat)) (f : Nat → Bool)
    (a : Nat) (hmem : some a ∈ slots) (hfail : f a = false) :
    none ∈ (distribute_jpeg slots f).1 := by
  induction slots with
  | nil => cases hmem
  | cons s rest ih =>
    cases s with
    | none =>
      simp [distribute_jpeg]
    | some c =>
      rcases List.mem_cons.mp hmem with h' | h'
      · have hca : c = a := (Option.some_inj.mp h').symm
        subst hca
        simp [distribute_jpeg, hfail]
      · by_cases hc : f c = true
        · simp [distribute_jpeg, hc]
          exact ih h'
        · simp [distribute_jpeg, hc]

lemma add_client_mem_of_free (slots : List (Option Nat)) (a : Nat)
    (h : none ∈ slots) : some a ∈ (add_client slots a).1 := by
  induction slots with
  | nil => cases h
  | cons s rest ih =>
    cases s with
    | none =>
      show some a ∈ some a :: rest
      exact List.mem_cons_self _ _
    | some b =>
      have h' : none ∈ rest := by
        rcases List.mem_cons.mp h with h'' | h''
        · exact absurd h'' (by simp)
        · exact h''
      exact List.mem_cons_of_mem _ (ih h')

/-- C6: a registered client whose send fails during `distribute_jpeg` is
evicted (its slot is cleared), so it is absent from the fan-out of any
subsequent broadcast; the failure does not affect delivery to any other
registered client whose send succeeds; and a later `add_client` for the
same address (triggered by a fresh inbound datagram) succeeds, since its
old slot is now free. -/
theorem client_eviction (slots : List (Option Nat)) (a : Nat)
    (sendOk1 sendOk2 : Nat → Bool)
    (hmem : some a ∈ slots) (hfail : sendOk1 a = false) :
    some a ∉ (distribute_jpeg slots sendOk1).1 ∧
    a ∉ (distribute_jpeg (distribute_jpeg slots sendOk1).1 sendOk2).2 ∧
    (∀ b, some b ∈ slots → sendOk1 b = true →
      b ∈ (distribute_jpeg slots sendOk1).2 ∧
      some b ∈ (distribute_jpeg slots sendOk1).1) ∧
    some a ∈ (add_client (distribute_jpeg slots sendOk1).1 a).1 := by
  have h1 : some a ∉ (distribute_jpeg slots sendOk1).1 := by
    intro hin
    have := (mem_distribute_slots slots sendOk1 a hin).2
    rw [hfail] at this
    cases this
  refine ⟨h1, ?_, ?_, ?_⟩
  · intro hin
    exact h1 (mem_distribute_sent _ sendOk2 a hin)
  · intro b hb hok
    exact distribute_delivers slots sendOk1 b hb hok
  · exact add_client_mem_of_free _ a (distribute_evicts slots sendOk1 a hmem hfail)

/-- Witness for C6 at a concrete input: of two registered clients, client
1 fails its send and is evicted while client 2 still receives the frame,
and client 1 can register again afterwards. -/
theorem client_eviction_witness :
    some 1 ∉ (distribute_jpeg
      [some 1, some 2, none, none, none, none, none, none]
      (fun x => x == 2)).1 ∧
    1 ∉ (distribute_jpeg (distribute_jpeg
      [some 1, some 2, none, none, none, none, none, none]
      (fun x => x == 2)).1 (fun _ => true)).2 ∧
    (∀ b, some b ∈ [some 1, some 2, none, none, none, none, none, none] →
      (fun x => x == 2) b = true →
      b ∈ (distribute_jpeg
        [some 1, some 2, none, none, none, none, none, none]
        (fun x => x == 2)).2 ∧
      some b ∈ (distribute_jpeg
        [some 1, some 2, none, none, none, none, none, none]
        (fun x => x == 2)).1) ∧
    some 1 ∈ (add_client (distribute_jpeg
      [some 1, some 2, none, none, none, none, none, none]
      (fun x => x == 2)).1 1).1 :=
  client_eviction [some 1, some 2, none, none, none, none, none, none] 1
    (fun x => x == 2) (fun _ => true) (by decide) (by decide)

/-- Environment after startup, following the order in `main`:
`parse_args` stores the command-line value (replace on), then
`load_config_file` stores the config-file value (replace off, per
`default_set`), then `fillin_defaults` stores the table default with
`setenv(..., 0)` (replace off). -/
def startup_env (env0 : String → Option String) (k cmdlineVal fileVal d : String) :
    String → Option String :=
  setenv_model
    (default_set (some k) (some fileVal) ConfigContext.file
      (default_set (some k) (some cmdlineVal) ConfigContext.parse_cmdline env0))
    k d false

/-- Model of `framing_set` in raspijpgs.c: `setstring(&state.framing,
value)` replaces the stored framing string unconditionally - the
`context` argument is ignored (`UNUSED`), unlike the replace-or-preserve
rule of `default_set`.  The framing slot is `none` while `state.framing`
is still NULL. -/
def framing_set (value : String) (_context : ConfigContext)
    (_framing : Option String) : Option String :=
  some value

/-- Framing value after startup, following the order in `main`:
`parse_args` invokes `framing_set` for a command-line `framing` value,
then `load_config_file` invokes it again for a config-file `framing`
line (for a known key, `parse_config_line` calls the setter in file
context too). -/
def startup_framing (framing0 : Option String) (cmdlineVal fileVal : String) :
    Option String :=
  framing_set fileVal ConfigContext.file
    (framing_set cmdlineVal ConfigContext.parse_cmdline framing0)

lemma setenv_model_keep (env : String → Option String) (k v x : String)
    (h : env k = some x) : setenv_model env k v false k = some x := by
  unfold setenv_model
  rw [if_pos rfl, h]
  rfl

lemma setenv_model_put (env : String → Option String) (k v : String) :
    setenv_model env k v true k = some v := by
  unfold setenv_model
  rw [if_pos rfl]
  cases env k <;> rfl

lemma default_set_cmdline (env : String → Option String) (k v : String) :
    default_set (some k) (some v) ConfigContext.parse_cmdline env k = some v := by
  unfold default_set
  exact setenv_model_put env k v

lemma default_set_client (env : String → Option String) (k v : String) :
    default_set (some k) (some v) ConfigContext.client_request env k = some v := by
  unfold default_set
  exact setenv_model_put env k v

lemma default_set_file_keep (env : String → Option String) (k v x : String)
    (h : env k = some x) :
    default_set (some k) (some v) ConfigContext.file env k = some x := by
  unfold default_set
  exact setenv_model_keep env k v x h

/-- C7 amended: for every option stored through `default_set` (the
options backed by an environment key), a config-file value only fills a
still-unset slot while a command-line value replaces, so after the
startup sequence the effective value is the command-line one, and a later
client request replaces it immediately.  Options with custom setters are
the exception: `framing_set` replaces unconditionally in every context,
and since `main` parses the config file after the command line, a
config-file `framing` value overrides the command-line one (a live
client request still overrides immediately). -/
theorem config_precedence (env0 : String → Option String)
    (k cmdlineVal fileVal d liveVal : String) (framing0 : Option String)
    (fCmdline fFile fLive : String) :
    (startup_env env0 k cmdlineVal fileVal d k = some cmdlineVal ∧
      default_set (some k) (some liveVal) ConfigContext.client_request
        (startup_env env0 k cmdlineVal fileVal d) k = some liveVal) ∧
    startup_framing framing0 fCmdline fFile = some fFile ∧
    framing_set fLive ConfigContext.client_request
      (startup_framing framing0 fCmdline fFile) = some fLive := by
  refine ⟨⟨?_, ?_⟩, rfl, rfl⟩
  · unfold startup_env
    exact setenv_model_keep _ k d cmdlineVal
      (default_set_file_keep _ k fileVal cmdlineVal
        (default_set_cmdline env0 k cmdlineVal))
  · exact default_set_client _ k liveVal

/-- Counterexample to C7 as stated: for the option `framing`, set to
`mime` in the config file and to `header` on the command line, the
effective value after startup is `mime` - the config-file value, not the
command-line one - because `framing_set` replaces unconditionally and the
config file is parsed after the command line. -/
theorem config_precedence_cx :
    startup_framing none "header" "mime" = some "mime" ∧
    (some "mime" : Option String) ≠ some "header" := by
  refine ⟨rfl, by decide⟩

/-- C8 amended: a client request with a quality value above 100 is not
ignored; `quality_apply` clamps it to 100 via `constrain` and applies that
to the encoder port, whatever the prior value was, and the session is not
terminated. -/
theorem quality_clamped (v : Nat) (h : 100 < (v : Int)) :
    quality_apply v = (100, false) := by
  unfold quality_apply constrain
  rw [if_neg (by omega), if_pos (by omega)]

/-- Witness for the amended C8 at the concrete request value 150. -/
theorem quality_clamped_witness : quality_apply 150 = (100, false) :=
  quality_clamped 150 (by decide)

/-- Counterexample to C8 as stated: on the request `quality=150` the prior
effective value (the default 15) is not retained - the applied value is
the clamped 100; the session is indeed not terminated. -/
theorem quality_clamped_cx :
    quality_apply 150 = (100, false) ∧ (100 : Int) ≠ 15 := by
  decide

/-- Value of a digit list read most-significant-first. -/
def digits_value (ds : List Nat) : Nat :=
  ds.foldl (fun acc d => acc * 10 + d) 0

lemma digits_value_append (ds : List Nat) (d : Nat) :
    digits_value (ds ++ [d]) = digits_value ds * 10 + d := by
  unfold digits_value
  rw [List.foldl_append]
  rfl

lemma digits_value_to_decimal_le (n : Nat) :
    digits_value (to_decimal_le n).reverse = n := by
  induction n using Nat.strong_induction_on with
  | _ n ih =>
    by_cases h : n = 0
    · subst h
      rw [to_decimal_le]
      simp [digits_value]
    · rw [to_decimal_le, dif_neg h, List.reverse_cons, digits_value_append,
        ih (n / 10) (Nat.div_lt_self (Nat.pos_of_ne_zero h) (by norm_num))]
      omega

lemma digits_value_to_decimal (n : Nat) :
    digits_value (to_decimal n) = n := by
  unfold to_decimal
  by_cases h : n = 0
  · rw [if_pos h, h]
    rfl
  · rw [if_neg h]
    exact digits_value_to_decimal_le n

lemma decimal_value_map_ascii (ds : List Nat) :
    decimal_value (ds.map (· + 48)) = digits_value ds := by
  unfold decimal_value digits_value
  have aux : ∀ (l : List Nat) (a : Nat),
      (l.map (· + 48)).foldl (fun acc d => acc * 10 + (d - 48)) a =
        l.foldl (fun acc d => acc * 10 + d) a := by
    intro l
    induction l with
    | nil => intro a; rfl
    | cons d l ih =>
      intro a
      rw [List.map_cons, List.foldl_cons, List.foldl_cons,
        Nat.add_sub_cancel]
      exact ih _
  exact aux ds 0

lemma to_decimal_le_digit_le (n : Nat) :
    ∀ d ∈ to_decimal_le n, d ≤ 9 := by
  induction n using Nat.strong_induction_on with
  | _ n ih =>
    intro d hd
    by_cases h : n = 0
    · subst h
      rw [to_decimal_le] at hd
      simp at hd
    · rw [to_decimal_le, dif_neg h] at hd
      rcases List.mem_cons.mp hd with h' | h'
      · rw [h']
        omega
      · exact ih (n / 10)
          (Nat.div_lt_self (Nat.pos_of_ne_zero h) (by norm_num)) d h'

lemma to_decimal_digit_le (n : Nat) : ∀ d ∈ to_decimal n, d ≤ 9 := by
  intro d hd
  unfold to_decimal at hd
  by_cases h : n = 0
  · rw [if_pos h] at hd
    rcases List.mem_singleton.mp hd with h'
    rw [h']
    omega
  · rw [if_neg h] at hd
    exact to_decimal_le_digit_le n d (List.mem_reverse.mp hd)

lemma declared_len_encode (frame : List Nat) (h32 : frame.length < 2 ^ 32) :
    declared_len (to_uint32_be frame.length ++ frame) = frame.length := by
  have hlen4 : (to_uint32_be frame.length).length = 4 := rfl
  unfold declared_len
  rw [List.getD_append _ _ 0 0 (by rw [hlen4]; omega),
    List.getD_append _ _ 0 1 (by rw [hlen4]; omega),
    List.getD_append _ _ 0 2 (by rw [hlen4]; omega),
    List.getD_append _ _ 0 3 (by rw [hlen4]; omega)]
  show frame.length / 2 ^ 24 % 256 * 2 ^ 24 +
      frame.length / 2 ^ 16 % 256 * 2 ^ 16 +
      frame.length / 2 ^ 8 % 256 * 2 ^ 8 + frame.length % 256 = frame.length
  omega

/-- C9: in `header` framing mode the bytes written for a frame are the
4-byte big-endian length followed by the frame bytes, and decoding them
per the spec reproduces the frame exactly; in `mime` framing mode the
part header is the fixed label followed by the ASCII decimal digits of the
payload length and a blank line, the digits are digits, and their decimal
value equals the byte count of the frame payload that follows. -/
theorem framing_roundtrip (frame : List Nat) (h32 : frame.length < 2 ^ 32) :
    decode_header_mode_spec (output_jpeg_header_mode frame) = some frame ∧
    output_jpeg_mime_mode frame =
      [content_length_label ++ (to_decimal frame.length).map (· + 48) ++
        strBytes "\r\n\r\n", frame, mime_boundary] ∧
    (∀ x ∈ (to_decimal frame.length).map (· + 48), 48 ≤ x ∧ x ≤ 57) ∧
    decimal_value ((to_decimal frame.length).map (· + 48)) = frame.length := by
  refine ⟨?_, rfl, ?_, ?_⟩
  · unfold decode_header_mode_spec output_jpeg_header_mode
    have hlen4 : (to_uint32_be frame.length).length = 4 := rfl
    have hdrop : (to_uint32_be frame.length ++ frame).drop 4 = frame := by
      have h := List.drop_left (to_uint32_be frame.length) frame
      rwa [hlen4] at h
    rw [if_pos (by rw [List.length_append, hlen4]; omega)]
    rw [declared_len_encode frame h32, hdrop,
      if_pos le_rfl, List.take_length]
  · intro x hx
    obtain ⟨d, hd, hdx⟩ := List.mem_map.mp hx
    have := to_decimal_digit_le frame.length d hd
    omega
  · rw [decimal_value_map_ascii, digits_value_to_decimal]

/-- Witness for C9 at the concrete 2-byte frame `[255, 216]`. -/
theorem framing_roundtrip_witness :
    decode_header_mode_spec (output_jpeg_header_mode [255, 216]) =
      some [255, 216] ∧
    output_jpeg_mime_mode [255, 216] =
      [content_length_label ++
        (to_decimal (List.length [255, 216])).map (· + 48) ++
        strBytes "\r\n\r\n", [255, 216], mime_boundary] ∧
    (∀ x ∈ (to_decimal (List.length [255, 216])).map (· + 48),
      48 ≤ x ∧ x ≤ 57) ∧
    decimal_value ((to_decimal (List.length [255, 216])).map (· + 48)) =
      List.length [255, 216] :=
  framing_roundtrip [255, 216] (by decide)

/-- C10: servicing an inbound control-socket datagram while a partial
frame sits in the assembly buffer overwrites the accumulated bytes,
because `recvfrom` reads into the same `socket_buffer` array the frames
are assembled in.  Concretely: after submitting the non-terminal chunk
`[171, 205]`, servicing the 1-byte datagram `[113]` (which also writes a
terminating 0), then submitting the terminal chunk `[239]`, the frame
distributed is `[113, 0, 239]` while the write offset stayed 2 - not the
chunk concatenation `[171, 205, 239]`. -/
theorem service_client_corrupts_frame :
    (server_service_client
        (jpegencoder_buffer_callback ⟨fun _ => 0, 0⟩ ⟨[171, 205], false⟩).1
        [] [113] 7).1.ix = 2 ∧
    (jpegencoder_buffer_callback
        (server_service_client
          (jpegencoder_buffer_callback ⟨fun _ => 0, 0⟩ ⟨[171, 205], false⟩).1
          [] [113] 7).1
        ⟨[239], true⟩).2 = [Event.frame [113, 0, 239]] ∧
    [113, 0, 239] ≠ [171, 205] ++ [239] := by
  refine ⟨by decide, by decide, by decide⟩

end Raspijpgs
